import Mathlib

/-!
Verification of the Ghostbuster SIGINT dashboard core (src/ghostbuster.py):
the sweep scheduler, candidate extraction/merge, the track-session sample
log, the RSSI power computation over IQ bytes, and the map color buckets.

Frequencies and dBm values, which the script holds as decimal floats read
from CSV text and UI widgets, are embedded as rationals; the final
`10*log10(...) - 30` power transform is embedded over the reals.
-/

namespace Ghostbuster

/-- A parsed row of `hackrf_sweep` CSV output, as read by `parse_sweep_data`
(ghostbuster.py line 67).  The `date`, `time` and `samples` columns are read
but never used by the script, so they are omitted. -/
structure SweepRow where
  start_freq : ℚ
  end_freq : ℚ
  dbm : ℚ
deriving DecidableEq, Repr

/-- Strict lexicographic order on the pandas group key `(start_freq, end_freq)`;
`groupby` sorts its output by this key. -/
def keyLt (a b : SweepRow) : Prop :=
  a.start_freq < b.start_freq ∨
    (a.start_freq = b.start_freq ∧ a.end_freq < b.end_freq)

instance (a b : SweepRow) : Decidable (keyLt a b) := by
  unfold keyLt; infer_instance

/-- Fold one row into the sorted-by-key group accumulator: a row whose
`(start_freq, end_freq)` key is already present raises that group's maximum
`dbm`; a fresh key is inserted at its sorted position. -/
def insertGroup (r : SweepRow) : List SweepRow → List SweepRow
  | [] => [r]
  | g :: gs =>
    if r.start_freq = g.start_freq ∧ r.end_freq = g.end_freq then
      { g with dbm := max g.dbm r.dbm } :: gs
    else if keyLt r g then
      r :: g :: gs
    else
      g :: insertGroup r gs

/-- `df.groupby(["start_freq", "end_freq"]).agg(dbm max).reset_index()`
(ghostbuster.py line 68): one row per distinct `(start_freq, end_freq)` key,
carrying the maximum `dbm` of its group, sorted by key. -/
def groupMax (rows : List SweepRow) : List SweepRow :=
  rows.foldl (fun acc r => insertGroup r acc) []

/-- `parse_sweep_data` (ghostbuster.py lines 64-73): group rows by band,
keep each band's maximum `dbm`, then keep only bands with `dbm > -60`
(the hard-coded threshold on line 69). -/
def parse_sweep_data (rows : List SweepRow) : List SweepRow :=
  (groupMax rows).filter (fun r => (-60 : ℚ) < r.dbm)

/-- `pd.DataFrame.drop_duplicates(subset=["start_freq"])` with the default
`keep="first"`: walk the rows in order, keeping a row only when its
`start_freq` has not been seen yet.  `seen` is the accumulator of
`start_freq` values already kept. -/
def dropDupAux (seen : List ℚ) : List SweepRow → List SweepRow
  | [] => []
  | r :: rs =>
    if r.start_freq ∈ seen then dropDupAux seen rs
    else r :: dropDupAux (r.start_freq :: seen) rs

/-- The candidate merge of ghostbuster.py line 109:
`pd.concat([existing, new]).drop_duplicates(subset=["start_freq"])`.
Existing rows come first in the concatenation, so with pandas' default
`keep="first"` an existing row shadows any new row with the same
`start_freq`. -/
def merge (existing newCands : List SweepRow) : List SweepRow :=
  dropDupAux [] (existing ++ newCands)

/-- The `start_freq` keys of a candidate list. -/
def startKeys (rows : List SweepRow) : List ℚ :=
  rows.map SweepRow.start_freq

/-- Outcome of one `run_hackrf_sweep` invocation (ghostbuster.py lines
53-62): on success the tool's CSV output parses to a list of rows; any
exception (including the 10 s timeout) is caught and reported as failure. -/
inductive SweepResult where
  | ok (rows : List SweepRow)
  | fail
deriving DecidableEq, Repr

/-- The session state the sweep blocks read and write: the accumulated
candidate table (`st.session_state["candidates"]`, default empty) and the
last-sweep timestamp (`st.session_state["last_sweep"]`, absent before the
first successful sweep). -/
structure GBState where
  candidates : List SweepRow
  lastSweep : Option ℚ
deriving DecidableEq, Repr

/-- The initial-sweep block (ghostbuster.py lines 96-101): when no
`last_sweep` timestamp is recorded, the sweep tool is invoked
unconditionally; only on success are the candidates replaced by the parsed
output and the timestamp set.  Returns the new state and whether the
sweep tool was invoked. -/
def initialSweep (s : GBState) (now : ℚ) (res : SweepResult) :
    GBState × Bool :=
  match s.lastSweep with
  | none =>
    match res with
    | .ok rows => (⟨parse_sweep_data rows, some now⟩, true)
    | .fail => (s, true)
  | some _ => (s, false)

/-- The periodic-sweep block (ghostbuster.py lines 104-110): when a
`last_sweep` timestamp exists and `now - last_sweep > interval` (strict
comparison on line 105), the sweep tool is invoked; only on success are
the new candidates merged in and the timestamp advanced.  Returns the new
state and whether the sweep tool was invoked. -/
def periodicSweep (s : GBState) (now interval : ℚ) (res : SweepResult) :
    GBState × Bool :=
  match s.lastSweep with
  | none => (s, false)
  | some t =>
    if interval < now - t then
      match res with
      | .ok rows =>
        (⟨merge s.candidates (parse_sweep_data rows), some now⟩, true)
      | .fail => (s, true)
    else (s, false)

/-- Reduction of an integer into the signed 8-bit range `[-128, 127]`:
the value class modulo `2^8`, as numpy `int8` arithmetic wraps to. -/
def int8wrap (x : ℤ) : ℤ :=
  (x + 128) % 256 - 128

/-- The elements at even indices of a list: `iq_data[0::2]`
(ghostbuster.py line 85), the I samples. -/
def evens : List ℤ → List ℤ
  | [] => []
  | [x] => [x]
  | x :: _ :: rest => x :: evens rest

/-- The elements at odd indices of a list: `iq_data[1::2]`
(ghostbuster.py line 86), the Q samples. -/
def odds : List ℤ → List ℤ
  | [] => []
  | _ :: rest => evens rest

/-- One element of `i_samples**2 + q_samples**2` (ghostbuster.py line 88):
numpy squares each `int8` in `int8` arithmetic, wrapping modulo `2^8`, and
adds the two `int8` results in `int8` arithmetic again. -/
def sumSqInt8 (i q : ℤ) : ℤ :=
  int8wrap (int8wrap (i * i) + int8wrap (q * q))

/-- `np.mean(i_samples**2 + q_samples**2)` as computed by the code on the
IQ byte list: the mean (a rational) of the per-pair `int8`-wrapped
square sums. -/
def meanSqCode (bytes : List ℤ) : ℚ :=
  let s := List.zipWith sumSqInt8 (evens bytes) (odds bytes)
  ((s.sum : ℤ) : ℚ) / (s.length : ℚ)

/-- Modelled from the spec: the mean of `I^2 + Q^2` with exact mathematical
squares, with no 8-bit wraparound, as the formula
`10*log10(mean(I^2+Q^2)) - 30` of spec section 6 reads. -/
def meanSqExact (bytes : List ℤ) : ℚ :=
  let s := List.zipWith (fun i q => i * i + q * q) (evens bytes) (odds bytes)
  ((s.sum : ℤ) : ℚ) / (s.length : ℚ)

/-- The power estimate of `get_real_time_rssi` on a successfully captured
IQ file (ghostbuster.py line 88):
`10 * np.log10(np.mean(i_samples**2 + q_samples**2)) - 30`, with the mean
taken over the `int8`-wrapped square sums the code actually computes. -/
noncomputable def powerOfIq (bytes : List ℤ) : ℝ :=
  10 * Real.logb 10 (meanSqCode bytes) - 30

/-- Modelled from the spec: the power estimate
`10*log10(mean(I^2+Q^2)) - 30` with exact mathematical squares. -/
noncomputable def powerExact (bytes : List ℤ) : ℝ :=
  10 * Real.logb 10 (meanSqExact bytes) - 30

/-- Outcome of one `hackrf_transfer` measurement (ghostbuster.py lines
75-93): on success the captured IQ file's bytes, read as 8-bit signed
values; any exception (including the 2 s timeout) is caught. -/
inductive MeasureResult where
  | ok (bytes : List ℤ)
  | fail

/-- `get_real_time_rssi` (ghostbuster.py lines 75-93): the power estimate
computed from the captured IQ bytes, or the sentinel `-100` dBm when the
measurement call raises (ghostbuster.py line 93). -/
noncomputable def get_real_time_rssi (res : MeasureResult) : ℝ :=
  match res with
  | .ok bytes => powerOfIq bytes
  | .fail => -100

/-- One entry of `st.session_state["history"]` (ghostbuster.py lines
124-130): position, measured power, timestamp and chased frequency. -/
structure Sample where
  lat : ℚ
  lon : ℚ
  rssi : ℝ
  time : ℚ
  freq : ℚ

/-- One chase-mode tick (ghostbuster.py lines 122-131): measure the RSSI
at the selected frequency (sentinel `-100` on failure) and append the
resulting entry to the history log. -/
noncomputable def tick (log : List Sample) (now lat lon freq : ℚ)
    (res : MeasureResult) : List Sample :=
  log ++ [⟨lat, lon, get_real_time_rssi res, now, freq⟩]

/-- The input of one tick: timestamp, position, selected frequency and
the measurement outcome. -/
structure TickInput where
  now : ℚ
  lat : ℚ
  lon : ℚ
  freq : ℚ
  res : MeasureResult

/-- A sequence of chase-mode ticks applied in order to the history log. -/
noncomputable def runTicks (log : List Sample) : List TickInput → List Sample
  | [] => log
  | t :: ts => runTicks (tick log t.now t.lat t.lon t.freq t.res) ts

/-- The color bucketing of `generate_map` (ghostbuster.py line 144):
`"green" if rssi > -50 else "orange" if rssi > -60 else "red"`.
The spec names the buckets strong / moderate / weak. -/
def rssiColor (rssi : ℚ) : String :=
  if -50 < rssi then "green"
  else if -60 < rssi then "orange"
  else "red"

/-! ### Lemmas about `drop_duplicates` -/

theorem dropDupAux_cons_pos {s : List ℚ} {r : SweepRow}
    (h : r.start_freq ∈ s) (rs : List SweepRow) :
    dropDupAux s (r :: rs) = dropDupAux s rs := by
  simp [dropDupAux, h]

theorem dropDupAux_cons_neg {s : List ℚ} {r : SweepRow}
    (h : r.start_freq ∉ s) (rs : List SweepRow) :
    dropDupAux s (r :: rs) = r :: dropDupAux (r.start_freq :: s) rs := by
  simp [dropDupAux, h]

theorem dropDupAux_congr : ∀ (l : List SweepRow) {s s' : List ℚ},
    (∀ k : ℚ, k ∈ s ↔ k ∈ s') → dropDupAux s l = dropDupAux s' l := by
  intro l
  induction l with
  | nil => intro s s' _; rfl
  | cons r rs ih =>
    intro s s' h
    by_cases hr : r.start_freq ∈ s
    · simp only [dropDupAux, if_pos hr, if_pos ((h _).mp hr)]
      exact ih h
    · simp only [dropDupAux, if_neg hr, if_neg (fun hh => hr ((h _).mpr hh))]
      refine congrArg _ (ih ?_)
      intro k
      simp only [List.mem_cons]
      rw [h k]

theorem dropDupAux_append : ∀ (l m : List SweepRow) (s : List ℚ),
    dropDupAux s (l ++ m) =
      dropDupAux s l ++ dropDupAux (startKeys l ++ s) m := by
  intro l
  induction l with
  | nil => intro m s; simp [dropDupAux, startKeys]
  | cons r rs ih =>
    intro m s
    by_cases hr : r.start_freq ∈ s
    · have h' : ∀ k : ℚ, k ∈ startKeys rs ++ s ↔ k ∈ startKeys (r :: rs) ++ s := by
        intro k
        simp only [startKeys, List.map_cons, List.mem_append, List.mem_cons]
        constructor
        · tauto
        · rintro ((rfl | hk) | hk) <;> tauto
      rw [List.cons_append, dropDupAux_cons_pos hr, dropDupAux_cons_pos hr,
        ih, dropDupAux_congr m h']
    · have h' : ∀ k : ℚ, k ∈ startKeys rs ++ r.start_freq :: s ↔
          k ∈ startKeys (r :: rs) ++ s := by
        intro k
        simp only [startKeys, List.map_cons, List.mem_append, List.mem_cons]
        tauto
      rw [List.cons_append, dropDupAux_cons_neg hr, dropDupAux_cons_neg hr,
        ih, dropDupAux_congr m h', List.cons_append]

theorem dropDupAux_eq_nil : ∀ (l : List SweepRow) (s : List ℚ),
    (∀ r ∈ l, r.start_freq ∈ s) → dropDupAux s l = [] := by
  intro l
  induction l with
  | nil => intro s _; rfl
  | cons r rs ih =>
    intro s h
    have hr : r.start_freq ∈ s := h r (List.mem_cons_self r rs)
    simp only [dropDupAux, if_pos hr]
    exact ih s (fun x hx => h x (List.mem_cons_of_mem r hx))

theorem dropDupAux_idem : ∀ (l : List SweepRow) (s : List ℚ),
    dropDupAux s (dropDupAux s l) = dropDupAux s l := by
  intro l
  induction l with
  | nil => intro s; rfl
  | cons r rs ih =>
    intro s
    by_cases hr : r.start_freq ∈ s
    · simp only [dropDupAux, if_pos hr]
      exact ih s
    · simp only [dropDupAux, if_neg hr]
      rw [ih (r.start_freq :: s)]

theorem mem_startKeys_dropDupAux : ∀ (l : List SweepRow) (s : List ℚ)
    (r : SweepRow), r ∈ l → r.start_freq ∉ s →
    r.start_freq ∈ startKeys (dropDupAux s l) := by
  intro l
  induction l with
  | nil => intro s r hr _; exact absurd hr (List.not_mem_nil r)
  | cons x xs ih =>
    intro s r hr hs
    rcases List.mem_cons.mp hr with rfl | hr'
    · rw [dropDupAux_cons_neg hs]
      simp [startKeys]
    · by_cases hx : x.start_freq ∈ s
      · rw [dropDupAux_cons_pos hx]
        exact ih s r hr' hs
      · rw [dropDupAux_cons_neg hx]
        simp only [startKeys, List.map_cons, List.mem_cons]
        by_cases hxr : r.start_freq = x.start_freq
        · exact Or.inl hxr
        · refine Or.inr ?_
          have hns : r.start_freq ∉ x.start_freq :: s := by
            simp only [List.mem_cons]
            tauto
          exact ih (x.start_freq :: s) r hr' hns

theorem startKeys_dropDupAux_nodup : ∀ (l : List SweepRow) (s : List ℚ),
    (startKeys (dropDupAux s l)).Nodup ∧
      ∀ k ∈ startKeys (dropDupAux s l), k ∉ s := by
  intro l
  induction l with
  | nil => intro s; simp [dropDupAux, startKeys]
  | cons r rs ih =>
    intro s
    by_cases hr : r.start_freq ∈ s
    · simpa only [dropDupAux, if_pos hr] using ih s
    · obtain ⟨hnd, hdisj⟩ := ih (r.start_freq :: s)
      simp only [dropDupAux, if_neg hr, startKeys, List.map_cons,
        List.nodup_cons, List.mem_cons]
      refine ⟨⟨fun hmem => ?_, hnd⟩, ?_⟩
      · exact hdisj _ hmem (List.mem_cons_self _ _)
      · intro k hk
        rcases hk with rfl | hk
        · exact hr
        · have := hdisj k hk
          simp only [List.mem_cons] at this
          tauto

/-! ### Claim theorems: candidate merge and extraction -/

/-- Claim C1 counterexample: merging an existing candidate for band
`(100, 101)` at `-55` dBm with a new candidate for the same band at
`-40` dBm keeps the OLD entry: the new entry does not replace it, the
stored power is not updated. -/
theorem merge_keeps_old_entry :
    merge [⟨100, 101, -55⟩] [⟨100, 101, -40⟩] = [⟨100, 101, -55⟩] ∧
      (⟨100, 101, -55⟩ : SweepRow) ≠ ⟨100, 101, -40⟩ := by
  constructor
  · rfl
  · decide

/-- Claim C1 (amended): merging keeps, for each `start_freq`, the FIRST
entry seen.  If the existing set is already deduplicated by `start_freq`,
the merge retains every existing entry unchanged and appends only those
new entries whose `start_freq` does not yet occur (in the existing set or
earlier in the new set); the result has at most one candidate per
distinct `start_freq`. -/
theorem merge_first_wins (e n : List SweepRow)
    (he : dropDupAux [] e = e) :
    merge e n = e ++ dropDupAux (startKeys e) n ∧
      (startKeys (merge e n)).Nodup := by
  constructor
  · show dropDupAux [] (e ++ n) = _
    rw [dropDupAux_append, he]
    refine congrArg _ (dropDupAux_congr n ?_)
    intro k
    simp
  · exact (startKeys_dropDupAux_nodup (e ++ n) []).1

/-- Claim C1 witness: the amended merge law evaluated on the concrete
one-band states. -/
theorem merge_first_wins_witness :
    merge [⟨100, 101, -55⟩] [⟨100, 101, -40⟩] =
      [⟨100, 101, -55⟩] ++
        dropDupAux (startKeys [⟨100, 101, -55⟩]) [⟨100, 101, -40⟩] :=
  (merge_first_wins [⟨100, 101, -55⟩] [⟨100, 101, -40⟩] (by rfl)).1

/-- Claim C7: `merge` is idempotent — merging the same new-candidate list
twice yields the same result as merging it once. -/
theorem merge_idempotent (e n : List SweepRow) :
    merge (merge e n) n = merge e n := by
  show dropDupAux [] (dropDupAux [] (e ++ n) ++ n) = dropDupAux [] (e ++ n)
  rw [dropDupAux_append, dropDupAux_idem]
  have hnil : dropDupAux (startKeys (dropDupAux [] (e ++ n)) ++ []) n = [] := by
    refine dropDupAux_eq_nil n _ ?_
    intro r hr
    rw [List.append_nil]
    exact mem_startKeys_dropDupAux (e ++ n) [] r
      (List.mem_append_right e hr) (List.not_mem_nil _)
  rw [hnil, List.append_nil]

/-- Claim C4: `parse_sweep_data` never returns a candidate whose peak
power is below (indeed, at or below) the `-60` dBm threshold; every band
whose group maximum fails the threshold test is filtered out. -/
theorem parse_sweep_data_threshold (rows : List SweepRow) (r : SweepRow) :
    (r ∈ parse_sweep_data rows → -60 < r.dbm) ∧
    (r.dbm < -60 → r ∉ parse_sweep_data rows) := by
  constructor
  · intro h
    unfold parse_sweep_data at h
    rw [List.mem_filter] at h
    exact of_decide_eq_true h.2
  · intro hlt hmem
    unfold parse_sweep_data at hmem
    rw [List.mem_filter] at hmem
    have := of_decide_eq_true hmem.2
    linarith

/-- Claim C4 witness: the threshold bound evaluated on a concrete
one-row sweep output. -/
theorem parse_sweep_data_threshold_witness :
    (-60 : ℚ) < (⟨100, 101, -55⟩ : SweepRow).dbm :=
  (parse_sweep_data_threshold [⟨100, 101, -55⟩] ⟨100, 101, -55⟩).1 (by decide)

/-- Claim C6: on the sweep rows `(100,101,-55)`, `(100,101,-65)`,
`(200,201,-40)`, extraction groups by band, keeps each band's maximum
power, and filters by `> -60`: the result is exactly
`(100,101) ↦ -55` and `(200,201) ↦ -40`, the `-65` row being absorbed
into its band's maximum. -/
theorem parse_sweep_data_scenario :
    parse_sweep_data [⟨100, 101, -55⟩, ⟨100, 101, -65⟩, ⟨200, 201, -40⟩] =
      [⟨100, 101, -55⟩, ⟨200, 201, -40⟩] := by
  decide

/-! ### Lemmas about the sweep blocks -/

theorem initialSweep_fail_eq (s : GBState) (now : ℚ) :
    (initialSweep s now SweepResult.fail).1 = s := by
  obtain ⟨c, ls⟩ := s
  cases ls <;> rfl

theorem periodicSweep_fail_eq (s : GBState) (now i : ℚ) :
    (periodicSweep s now i SweepResult.fail).1 = s := by
  obtain ⟨c, ls⟩ := s
  cases ls with
  | none => rfl
  | some t => by_cases hc : i < now - t <;> simp [periodicSweep, hc]

/-! ### Claim theorems: sweep scheduling -/

/-- Claim C2 counterexample: with the last sweep at `t = 0` and interval
`30`, a call at exactly `t = 30` — where `now - last_sweep = interval` —
does NOT invoke the sweep tool: the gate on line 105 is strict `>`, not
the claimed `>=`. -/
theorem periodicSweep_boundary_no_sweep :
    (periodicSweep ⟨[], some 0⟩ 30 30 (SweepResult.ok [])).2 = false := by
  simp [periodicSweep]

/-- Claim C2 (amended): the very first sweep (no last-sweep timestamp)
invokes the sweep tool unconditionally; afterwards the tool is invoked
exactly when `now - last_sweep > interval` (strict); and whenever no sweep
is triggered the call leaves the state unchanged (a no-op). -/
theorem sweep_gating (s : GBState) (now i : ℚ) (res : SweepResult) :
    (s.lastSweep = none → (initialSweep s now res).2 = true)
  ∧ (∀ t : ℚ, s.lastSweep = some t →
      ((periodicSweep s now i res).2 = true ↔ i < now - t))
  ∧ ((initialSweep s now res).2 = false → (initialSweep s now res).1 = s)
  ∧ ((periodicSweep s now i res).2 = false →
      (periodicSweep s now i res).1 = s) := by
  obtain ⟨cands, ls⟩ := s
  refine ⟨?_, ?_, ?_, ?_⟩
  · intro h
    cases ls with
    | none => cases res <;> rfl
    | some t => exact absurd h (by simp)
  · intro t ht
    cases ls with
    | none => exact absurd ht (by simp)
    | some t' =>
      have ht' : t' = t := by simpa using ht
      subst ht'
      by_cases hc : i < now - t'
      · cases res <;> simp [periodicSweep, hc]
      · simp [periodicSweep, hc]
  · intro h2
    cases ls with
    | none => cases res <;> simp [initialSweep] at h2
    | some t => rfl
  · intro h2
    cases ls with
    | none => rfl
    | some t =>
      by_cases hc : i < now - t
      · cases res <;> simp [periodicSweep, hc] at h2
      · simp [periodicSweep, hc]

/-- Claim C2 witness: the gating law evaluated at the spec's scenario —
first call always sweeps; with the last sweep at `t = 0` and interval 30,
`t = 5` does not sweep and `t = 31` does. -/
theorem sweep_gating_witness :
    (initialSweep ⟨[], none⟩ 0 SweepResult.fail).2 = true ∧
    (periodicSweep ⟨[], some 0⟩ 5 30 SweepResult.fail).2 = false ∧
    (periodicSweep ⟨[], some 0⟩ 31 30 SweepResult.fail).2 = true := by
  refine ⟨(sweep_gating ⟨[], none⟩ 0 30 SweepResult.fail).1 rfl, ?_, ?_⟩
  · have h := (sweep_gating ⟨[], some 0⟩ 5 30 SweepResult.fail).2.1 0 rfl
    have hn : ¬ (30 : ℚ) < 5 - 0 := by norm_num
    exact Bool.eq_false_iff.mpr (fun hb => hn (h.mp hb))
  · exact ((sweep_gating ⟨[], some 0⟩ 31 30 SweepResult.fail).2.1 0 rfl).mpr
      (by norm_num)

/-- Claim C8: when the sweep tool fails or times out, the last-sweep
timestamp is left unchanged (on both the initial and the periodic path),
and the failed attempt does not change whether a later call invokes the
sweep tool again: the next eligible tick retries. -/
theorem sweep_fail_keeps_timestamp (s : GBState) (now now' i : ℚ)
    (res' : SweepResult) :
    ((initialSweep s now SweepResult.fail).1.lastSweep = s.lastSweep)
  ∧ ((periodicSweep s now i SweepResult.fail).1.lastSweep = s.lastSweep)
  ∧ ((periodicSweep (periodicSweep s now i SweepResult.fail).1 now' i res').2
      = (periodicSweep s now' i res').2) := by
  refine ⟨?_, ?_, ?_⟩
  · rw [initialSweep_fail_eq]
  · rw [periodicSweep_fail_eq]
  · rw [periodicSweep_fail_eq]

/-- Claim C10: a failed sweep invocation leaves the whole session state
unchanged — candidates and last-sweep timestamp together.  The
sweep-and-merge step is atomic: both fields are updated only on success,
so no partial update is observable after a failed sweep. -/
theorem sweep_fail_atomic (s : GBState) (now i : ℚ) :
    (initialSweep s now SweepResult.fail).1 = s ∧
    (periodicSweep s now i SweepResult.fail).1 = s :=
  ⟨initialSweep_fail_eq s now, periodicSweep_fail_eq s now i⟩

/-! ### Claim theorems: track session -/

/-- Claim C3: each tick appends exactly one sample, so any sequence of
ticks grows the log by exactly the number of ticks issued — regardless of
measurement outcomes — and a failed or timed-out measurement still
appends its sample, carrying the sentinel power `-100` dBm. -/
theorem tick_log_growth (log : List Sample) (ts : List TickInput)
    (now lat lon freq : ℚ) :
    (runTicks log ts).length = log.length + ts.length ∧
    tick log now lat lon freq MeasureResult.fail =
      log ++ [⟨lat, lon, -100, now, freq⟩] := by
  constructor
  · induction ts generalizing log with
    | nil => simp [runTicks]
    | cons t ts ih =>
      rw [runTicks, ih]
      simp [tick]
      omega
  · rfl

/-! ### Claim theorems: color classification -/

/-- Claim C5: color classification is a total function on power values —
every power maps to exactly one of green (strong), orange (moderate),
red (weak) — with `p > -50` green, `-60 < p ≤ -50` orange, `p ≤ -60` red;
the boundaries are strict, so exactly `-50` is not green and exactly
`-60` is not orange. -/
theorem rssiColor_total (p : ℚ) :
    (rssiColor p = "green" ∨ rssiColor p = "orange" ∨ rssiColor p = "red")
  ∧ (rssiColor p = "green" ↔ -50 < p)
  ∧ (rssiColor p = "orange" ↔ -60 < p ∧ p ≤ -50)
  ∧ (rssiColor p = "red" ↔ p ≤ -60)
  ∧ rssiColor (-50) ≠ "green" ∧ rssiColor (-60) ≠ "orange" := by
  refine ⟨?_, ?_, ?_, ?_, by decide, by decide⟩
  · unfold rssiColor
    split_ifs <;> simp
  · unfold rssiColor
    split_ifs with h1 h2
    · exact iff_of_true rfl h1
    · exact iff_of_false (by decide) h1
    · exact iff_of_false (by decide) h1
  · unfold rssiColor
    split_ifs with h1 h2
    · exact iff_of_false (by decide) (fun hc => (not_le.mpr h1) hc.2)
    · exact iff_of_true rfl ⟨h2, not_lt.mp h1⟩
    · exact iff_of_false (by decide) (fun hc => h2 hc.1)
  · unfold rssiColor
    split_ifs with h1 h2
    · exact iff_of_false (by decide)
        (not_le.mpr (lt_trans (by norm_num) h1))
    · exact iff_of_false (by decide) (not_le.mpr h2)
    · exact iff_of_true rfl (not_lt.mp h2)

/-! ### Claim theorems: IQ power computation -/

/-- Claim C9: the code squares the 8-bit samples in `int8` arithmetic, so
on the two-byte IQ capture `[16, 1]` the square `16² = 256` wraps to `0`:
the code's mean is `1` and its power estimate `10·log10(1) − 30 = −30`
dBm, while the spec's exact-square formula has mean `257` and a strictly
larger power — the code diverges from the specified formula. -/
theorem power_int8_overflow :
    meanSqCode [16, 1] = 1 ∧ meanSqExact [16, 1] = 257 ∧
    powerOfIq [16, 1] = -30 ∧ powerOfIq [16, 1] ≠ powerExact [16, 1] := by
  have hcode : meanSqCode [16, 1] = 1 := by
    simp [meanSqCode, evens, odds, sumSqInt8, int8wrap]
  have hexact : meanSqExact [16, 1] = 257 := by
    simp [meanSqExact, evens, odds]
  have hpow : powerOfIq [16, 1] = -30 := by
    unfold powerOfIq
    rw [hcode]
    simp [Real.logb]
  refine ⟨hcode, hexact, hpow, ?_⟩
  have hgt : (0 : ℝ) < Real.logb 10 ((meanSqExact [16, 1] : ℚ) : ℝ) := by
    rw [hexact]
    have : (((257 : ℚ) : ℝ)) = (257 : ℝ) := by norm_num
    rw [this]
    exact Real.logb_pos (by norm_num) (by norm_num)
  intro heq
  rw [hpow] at heq
  unfold powerExact at heq
  linarith [heq, hgt]

end Ghostbuster
